import Mathlib

/-!
Verification development for the per-chunk frame-processing pipeline of
moseq2-extract (`moseq2_extract/extract/extract.py`, function `extract_chunk`).

The orchestrator `extract_chunk` is embedded faithfully from the source file.
The helper functions it calls (`clean_frames`, `apply_roi`, `get_frame_features`,
`crop_and_rotate_frames`, `get_flips`, `compute_scalars`, `em_tracking`,
`em_get_ll`) live in modules that are not part of the analysed sources; they are
modelled from the specification, as stated in their doc comments.

Conventions of the embedding:
* a depth frame is a list of rows of rational pixel values; a chunk is a list
  of frames;
* numpy float NaN sentinels for missing per-frame values are modelled as
  `Option` (`none` = missing), per the NaN-as-missing convention of the spec;
* angles are real numbers; likelihood values are real numbers;
* numpy array truthiness (`if bground:`) is modelled exactly: a one-element
  array is truthy iff its element is nonzero, an empty array is falsy, and any
  larger array raises `ValueError`; a raised exception is an `Except.error`.
-/

namespace Moseq

/-- A 2D frame of pixel values: rows of columns. -/
abbrev Frame (α : Type) := List (List α)

/-- A pixel coordinate: (row, column). -/
abbrev Cell := ℕ × ℕ

/-- All pixel values of a frame, row-major (numpy ravel). -/
def flattenF {α : Type} (f : Frame α) : List α := f.flatten

/-- Number of elements of the frame, as numpy `size`. -/
def frameSize {α : Type} (f : Frame α) : ℕ := (flattenF f).length

/-- The numpy error message raised by `bool()` on a multi-element array. -/
def ambiguousMsg : String :=
  "ValueError: The truth value of an array with more than one element is ambiguous"

/-- numpy truthiness of an array: one element, truthy iff nonzero; empty array
falsy (numpy of the era warns and yields False); more than one element raises
`ValueError`. -/
def npTruthy (f : Frame ℚ) : Except String Bool :=
  match flattenF f with
  | [] => .ok false
  | [x] => .ok (decide (x ≠ 0))
  | _ => .error ambiguousMsg

/-- Truthiness of the optional `bground` / `roi` arguments: `None` is falsy. -/
def guardTruthy : Option (Frame ℚ) → Except String Bool
  | none => .ok false
  | some f => npTruthy f

/-- Pixel read with `none` outside the frame bounds. -/
def pget {α : Type} (f : Frame α) (i j : ℤ) : Option α :=
  if i < 0 ∨ j < 0 then none
  else (f[i.toNat]? : Option (List α)).bind (fun row => row[j.toNat]?)

/-- A constant frame of the given size. -/
def constFrame {α : Type} (z : α) (cs : ℕ × ℕ) : Frame α :=
  List.replicate cs.1 (List.replicate cs.2 z)

/-- `np.flip(stack[t], axis=2)` for a (T, H, W) stack: mirror one frame along
the horizontal axis, reversing every row. -/
def flipHoriz {α : Type} (f : Frame α) : Frame α := f.map List.reverse

/-- The fancy-indexed in-place mirror `X[flips, ...] = np.flip(X[flips, ...],
axis=2)` of lines 84-86 of extract.py: frames whose decision is true are
mirrored, the others are left unchanged. -/
def applyFlips {α : Type} (flips : List Bool) (xs : List (Frame α)) : List (Frame α) :=
  List.zipWith (fun b f => if b then flipHoriz f else f) flips xs

/-- Boolean fancy indexing `xs[flips, ...]`: keep entries whose decision is
true. -/
def boolSelect {α : Type} (flips : List Bool) (xs : List α) : List α :=
  (List.zip flips xs).filterMap (fun p => if p.1 then some p.2 else none)

/-- Truncating conversion to `uint8` as numpy `astype('uint8')`: floor and wrap
modulo 256. -/
def toUint8 (q : ℚ) : ℚ := ((⌊q⌋ % 256 : ℤ) : ℚ)

/-- The background subtraction of line 28, `(bground - chunk).astype('uint8')`,
as it broadcasts once the truthiness guard has admitted the array (which the
guard only does for arrays of at most one element): subtract every pixel from
the background value. -/
def bgSubtract (bg : Frame ℚ) (chunk : List (Frame ℚ)) : List (Frame ℚ) :=
  let v := (flattenF bg).headD 0
  chunk.map (fun f => f.map (fun row => row.map (fun x => toUint8 (v - x))))

/-- Insert into a sorted rational list. -/
def insertSorted (x : ℚ) : List ℚ → List ℚ
  | [] => [x]
  | y :: ys => if x ≤ y then x :: y :: ys else y :: insertSorted x ys

/-- Insertion sort of a rational list. -/
def sortQ (l : List ℚ) : List ℚ := l.foldr insertSorted []

/-- Median of a rational list (0 for the empty list). -/
def medianQ (l : List ℚ) : ℚ := (sortQ l).getD (l.length / 2) 0

/-- Offsets of a (2r+1) × (2r+1) square neighborhood. -/
def squareOffsets (r : ℕ) : List (ℤ × ℤ) :=
  ((List.range (2 * r + 1)).map (fun a => (a : ℤ) - r)).flatMap (fun di =>
    ((List.range (2 * r + 1)).map (fun a => (a : ℤ) - r)).map (fun dj => (di, dj)))

/-- A structuring element: the list of (row, column) offsets of its support. -/
abbrev Strel := List (ℤ × ℤ)

/-- Modelled from the spec: `cv2.getStructuringElement(cv2.MORPH_RECT, (5, 5))`,
the default `strel_min` of extract.py — a full 5 × 5 square of offsets. -/
def strelRect5 : Strel := squareOffsets 2

/-- Modelled from the spec: `cv2.getStructuringElement(cv2.MORPH_ELLIPSE,
(9, 9))`, the default `strel_tail` of extract.py — modelled as the disc of
radius 4 inscribed in the 9 × 9 square. -/
def strelEllipse9 : Strel :=
  (squareOffsets 4).filter (fun p => decide (p.1 * p.1 + p.2 * p.2 ≤ 16))

/-- Median filter of one frame with a square neighborhood of radius `r`; at the
borders the neighborhood is reduced to the pixels inside the frame. -/
def medianFilterFrame (r : ℕ) (f : Frame ℚ) : Frame ℚ :=
  f.mapIdx (fun i row => row.mapIdx (fun j _ =>
    medianQ ((squareOffsets r).filterMap (fun d => pget f (i + d.1) (j + d.2)))))

/-- Grayscale dilation of one frame by a structuring element: maximum over the
support (seeded with the center pixel). -/
def dilateFrame (s : Strel) (f : Frame ℚ) : Frame ℚ :=
  f.mapIdx (fun i row => row.mapIdx (fun j x =>
    (s.filterMap (fun d => pget f (i + d.1) (j + d.2))).foldl max x))

/-- Grayscale erosion of one frame by a structuring element: minimum over the
support (seeded with the center pixel). -/
def erodeFrame (s : Strel) (f : Frame ℚ) : Frame ℚ :=
  f.mapIdx (fun i row => row.mapIdx (fun j x =>
    (s.filterMap (fun d => pget f (i + d.1) (j + d.2))).foldl min x))

/-- Morphological closing: dilation followed by erosion. -/
def closeFrame (s : Strel) (f : Frame ℚ) : Frame ℚ := erodeFrame s (dilateFrame s f)

/-- Morphological opening: erosion followed by dilation. -/
def openFrame (s : Strel) (f : Frame ℚ) : Frame ℚ := dilateFrame s (erodeFrame s f)

/-- Spatial pass: for each requested kernel size apply a median filter per
frame, each size refining the previous output. -/
def spatialFilter (sizes : List ℕ) (ch : List (Frame ℚ)) : List (Frame ℚ) :=
  sizes.foldl (fun acc k => acc.map (medianFilterFrame (k / 2))) ch

/-- Values of the time series at indices within distance `r` of `t`. -/
def windowVals (l : List ℚ) (t r : ℕ) : List ℚ :=
  ((List.range l.length).filter
    (fun s => decide (t ≤ s + r) && decide (s ≤ t + r))).filterMap (fun s => l[s]?)

/-- Temporal pass: median along the time axis with a sliding window of width
`w`; at chunk boundaries the window is reduced, never reading outside the
chunk. -/
def temporalFilter (w : ℕ) (ch : List (Frame ℚ)) : List (Frame ℚ) :=
  ch.mapIdx (fun t f => f.mapIdx (fun i row => row.mapIdx (fun j _ =>
    medianQ (((List.range ch.length).filter
      (fun s => decide (t ≤ s + w / 2) && decide (s ≤ t + w / 2))).filterMap
        (fun s => (ch[s]? : Option (Frame ℚ)).bind (fun g => pget g i j))))))

/-- Modelled from the spec: `clean_frames` from moseq2_extract.extract.proc
(module absent from the analysed sources) — spatial median passes for each
kernel size, an optional temporal median pass with a window reduced at chunk
boundaries, then morphological closing with `strel_tail` for `iters_tail`
iterations and opening with `strel_min` for `iters_min` iterations; the output
chunk has the shape of the input. -/
def clean_frames (prefilter_space : List ℕ) (prefilter_time : Option ℕ)
    (iters_tail : ℕ) (strel_tail : Strel) (iters_min : ℕ) (strel_min : Strel)
    (chunk : List (Frame ℚ)) : List (Frame ℚ) :=
  let c1 := spatialFilter prefilter_space chunk
  let c2 := match prefilter_time with
    | none => c1
    | some w => temporalFilter w c1
  let c3 := c2.map (fun f => (closeFrame strel_tail)^[iters_tail] f)
  c3.map (fun f => (openFrame strel_min)^[iters_min] f)

/-- Modelled from the spec: `apply_roi` from moseq2_extract.extract.proc
(module absent from the analysed sources) masks the chunk with an ROI mask.
extract.py line 31 invokes it with the chunk alone, so no mask reaches the
call; the call is modelled as masking with the full (all-pass) mask. -/
def apply_roi (chunk : List (Frame ℚ)) : List (Frame ℚ) := chunk

end Moseq

namespace Moseq

/-- A 3-vector of rationals: (row, column, depth). -/
abbrev Vec3 := ℚ × ℚ × ℚ

/-- A symmetric 3 × 3 rational matrix. -/
structure Sym3 where
  xx : ℚ
  xy : ℚ
  xz : ℚ
  yy : ℚ
  yz : ℚ
  zz : ℚ

/-- Tracker state: a mean position estimate and a covariance estimate over
(row, column, depth), per the spec data model. -/
structure TrackerState where
  mean : Vec3
  cov : Sym3

/-- Initial tracker state used when no frame of the chunk has foreground:
zero mean, identity covariance. -/
def defaultTrackerState : TrackerState :=
  { mean := (0, 0, 0), cov := ⟨1, 0, 0, 1, 0, 1⟩ }

/-- Modelled from the spec: the depth floor above which a pixel counts as
foreground for the tracker initialisation and per-frame statistics. -/
def emDepthFloor : ℚ := 10

/-- Foreground points of a frame for the tracker: (row, column, depth) for
every pixel strictly above the depth floor. -/
def fgPoints (f : Frame ℚ) : List Vec3 :=
  (f.mapIdx (fun i row => (row.mapIdx (fun j z =>
    if emDepthFloor < z then some ((i : ℚ), (j : ℚ), z) else none)).filterMap id)).flatten

/-- Empirical mean and covariance of a nonempty point list; `none` when the
frame has no foreground. -/
def frameStats3 (f : Frame ℚ) : Option TrackerState :=
  match fgPoints f with
  | [] => none
  | ps =>
    let n : ℚ := ps.length
    let mx := (ps.map (fun p => p.1)).sum / n
    let my := (ps.map (fun p => p.2.1)).sum / n
    let mz := (ps.map (fun p => p.2.2)).sum / n
    some
      { mean := (mx, my, mz),
        cov :=
          ⟨(ps.map (fun p => (p.1 - mx) * (p.1 - mx))).sum / n,
           (ps.map (fun p => (p.1 - mx) * (p.2.1 - my))).sum / n,
           (ps.map (fun p => (p.1 - mx) * (p.2.2 - mz))).sum / n,
           (ps.map (fun p => (p.2.1 - my) * (p.2.1 - my))).sum / n,
           (ps.map (fun p => (p.2.1 - my) * (p.2.2 - mz))).sum / n,
           (ps.map (fun p => (p.2.2 - mz) * (p.2.2 - mz))).sum / n⟩ }

/-- Exponential smoothing of two states: `rho * old + (1 - rho) * new`,
independently for the mean (rate `rho_mean`) and covariance (rate `rho_cov`). -/
def blendState (rho_mean rho_cov : ℚ) (old new : TrackerState) : TrackerState :=
  { mean :=
      (rho_mean * old.mean.1 + (1 - rho_mean) * new.mean.1,
       rho_mean * old.mean.2.1 + (1 - rho_mean) * new.mean.2.1,
       rho_mean * old.mean.2.2 + (1 - rho_mean) * new.mean.2.2),
    cov :=
      ⟨rho_cov * old.cov.xx + (1 - rho_cov) * new.cov.xx,
       rho_cov * old.cov.xy + (1 - rho_cov) * new.cov.xy,
       rho_cov * old.cov.xz + (1 - rho_cov) * new.cov.xz,
       rho_cov * old.cov.yy + (1 - rho_cov) * new.cov.yy,
       rho_cov * old.cov.yz + (1 - rho_cov) * new.cov.yz,
       rho_cov * old.cov.zz + (1 - rho_cov) * new.cov.zz⟩ }

/-- One tracker update: a frame with foreground blends its empirical statistics
into the running state; a frame with no foreground holds the state unchanged. -/
def emStep (rho_mean rho_cov : ℚ) (st : TrackerState) (f : Frame ℚ) : TrackerState :=
  match frameStats3 f with
  | none => st
  | some obs => blendState rho_mean rho_cov st obs

/-- Modelled from the spec: `em_tracking` from moseq2_extract.extract.track
(module absent from the analysed sources) — initialises mean/covariance from
the first valid frame's foreground statistics and iterates frame-by-frame with
exponential smoothing, holding the state over frames with no foreground; the
result is the per-frame smoothed state trajectory. -/
def em_tracking (rho_mean rho_cov : ℚ) (frames : List (Frame ℚ)) : List TrackerState :=
  let st0 := ((frames.filterMap frameStats3).head?).getD defaultTrackerState
  (frames.scanl (emStep rho_mean rho_cov) st0).tail

/-- Gaussian log-density of the point (row, column, depth) under a tracker
state, via the adjugate of the 3 × 3 covariance. -/
noncomputable def gaussLogPdf3 (st : TrackerState) (i j : ℕ) (z : ℚ) : ℝ :=
  let dx : ℝ := (i : ℝ) - (st.mean.1 : ℝ)
  let dy : ℝ := (j : ℝ) - (st.mean.2.1 : ℝ)
  let dz : ℝ := (z : ℝ) - (st.mean.2.2 : ℝ)
  let a : ℝ := (st.cov.xx : ℝ)
  let b : ℝ := (st.cov.xy : ℝ)
  let cc : ℝ := (st.cov.xz : ℝ)
  let d : ℝ := (st.cov.yy : ℝ)
  let e : ℝ := (st.cov.yz : ℝ)
  let g : ℝ := (st.cov.zz : ℝ)
  let det : ℝ := a * (d * g - e * e) - b * (b * g - e * cc) + cc * (b * e - d * cc)
  let qf : ℝ :=
    (dx * ((d * g - e * e) * dx + (cc * e - b * g) * dy + (b * e - cc * d) * dz) +
     dy * ((cc * e - b * g) * dx + (a * g - cc * cc) * dy + (b * cc - a * e) * dz) +
     dz * ((b * e - cc * d) * dx + (b * cc - a * e) * dy + (a * d - b * b) * dz)) / det
  let res : ℝ := -(qf / 2) - (3 / 2) * Real.log (2 * Real.pi) - (1 / 2) * Real.log det
  res

/-- Modelled from the spec: `em_get_ll` from moseq2_extract.extract.track
(module absent from the analysed sources) — for every pixel of the given chunk,
the log-density of (row, column, depth) under the Gaussian parameterised by the
per-frame smoothed mean/covariance. -/
noncomputable def em_get_ll (chunk : List (Frame ℚ)) (params : List TrackerState) :
    List (Frame ℝ) :=
  List.zipWith (fun f st => f.mapIdx (fun i row => row.mapIdx (fun j z =>
    gaussLogPdf3 st i j z))) chunk params

end Moseq

namespace Moseq

/-- Foreground cells of a filtered frame: pixels strictly above the frame
threshold. -/
def thrCellsQ (thr : ℚ) (f : Frame ℚ) : List Cell :=
  (f.mapIdx (fun i row => (row.mapIdx (fun j x =>
    if thr < x then some (i, j) else none)).filterMap id)).flatten

/-- Foreground cells of a likelihood frame: pixels strictly above the mask
threshold. -/
noncomputable def thrCellsR (thr : ℚ) (f : Frame ℝ) : List Cell :=
  (f.mapIdx (fun i row => (row.mapIdx (fun j x =>
    if (thr : ℝ) < x then some (i, j) else none)).filterMap id)).flatten

/-- 4-adjacency of two cells. -/
def adjCell (a b : Cell) : Bool :=
  (a.1 == b.1 && (a.2 == b.2 + 1 || b.2 == a.2 + 1)) ||
  (a.2 == b.2 && (a.1 == b.1 + 1 || b.1 == a.1 + 1))

/-- One growth step of a connected region inside the foreground cell set. -/
def growStep (all : List Cell) (s : List Cell) : List Cell :=
  all.filter (fun c0 => s.contains c0 || s.any (adjCell c0))

/-- The connected component of a cell within the foreground set, reached as the
fixed point of region growth. -/
def compOf (all : List Cell) (c0 : Cell) : List Cell :=
  (growStep all)^[all.length] [c0]

/-- Modelled from the spec: retain only the largest connected foreground
component of the cell set. -/
def largestComp (all : List Cell) : List Cell :=
  (all.map (compOf all)).foldl
    (fun best comp => if best.length < comp.length then comp else best) []

/-- Number of cells as a rational. -/
def cellCount (cells : List Cell) : ℚ := (cells.length : ℚ)

/-- Centroid of a cell set as (mean row, mean column); `none` when empty. -/
def centroidOf (cells : List Cell) : Option (ℚ × ℚ) :=
  match cells with
  | [] => none
  | _ => some ((cells.map (fun q => (q.1 : ℚ))).sum / cellCount cells,
               (cells.map (fun q => (q.2 : ℚ))).sum / cellCount cells)

/-- Central second moment of the rows of a cell set. -/
def mu20Of (cells : List Cell) : ℚ :=
  let n := cellCount cells
  let mr := (cells.map (fun q => (q.1 : ℚ))).sum / n
  (cells.map (fun q => ((q.1 : ℚ) - mr) * ((q.1 : ℚ) - mr))).sum / n

/-- Central second moment of the columns of a cell set. -/
def mu02Of (cells : List Cell) : ℚ :=
  let n := cellCount cells
  let mc := (cells.map (fun q => (q.2 : ℚ))).sum / n
  (cells.map (fun q => ((q.2 : ℚ) - mc) * ((q.2 : ℚ) - mc))).sum / n

/-- Mixed central second moment of a cell set. -/
def mu11Of (cells : List Cell) : ℚ :=
  let n := cellCount cells
  let mr := (cells.map (fun q => (q.1 : ℚ))).sum / n
  let mc := (cells.map (fun q => (q.2 : ℚ))).sum / n
  (cells.map (fun q => ((q.1 : ℚ) - mr) * ((q.2 : ℚ) - mc))).sum / n

/-- Modelled from the spec: the ellipse-fit orientation of a second-moment
descriptor, theta = arg(mu20 - mu02 + 2 mu11 i) / 2, defined up to pi. -/
noncomputable def momentAngle (m20 m11 m02 : ℚ) : ℝ :=
  (Complex.arg ⟨(m20 : ℝ) - (m02 : ℝ), 2 * (m11 : ℝ)⟩) / 2

/-- Orientation of a cell set; missing (`none`) when the set is empty. -/
noncomputable def orientOf (cells : List Cell) : Option ℝ :=
  match cells with
  | [] => none
  | _ => some (momentAngle (mu20Of cells) (mu11Of cells) (mu02Of cells))

/-- Modelled from the spec: ellipse axis lengths from the eigenvalues of the
second-moment matrix; missing when the cell set is empty. -/
noncomputable def axesOf (cells : List Cell) : Option (ℝ × ℝ) :=
  match cells with
  | [] => none
  | _ =>
    let m20 : ℝ := (mu20Of cells : ℝ)
    let m02 : ℝ := (mu02Of cells : ℝ)
    let m11 : ℝ := (mu11Of cells : ℝ)
    let disc := Real.sqrt ((m20 - m02) ^ 2 + 4 * m11 ^ 2)
    some (2 * Real.sqrt ((m20 + m02 + disc) / 2),
          2 * Real.sqrt ((m20 + m02 - disc) / 2))

/-- Per-frame features of a chunk: parallel sequences of centroid, orientation
and ellipse axes, `none` at frames with no detected foreground. -/
structure Features where
  centroid : List (Option (ℚ × ℚ))
  orientation : List (Option ℝ)
  axes : List (Option (ℝ × ℝ))

/-- The per-frame foreground cell lists of the feature extractor: thresholded
likelihood mask when one is supplied, thresholded filtered frames otherwise,
optionally reduced to the largest connected component. -/
noncomputable def fgCellsList (frame_threshold mask_threshold : ℚ) (use_cc : Bool)
    (mask : Option (List (Frame ℝ))) (filtered : List (Frame ℚ)) : List (List Cell) :=
  let raw := match mask with
    | none => filtered.map (thrCellsQ frame_threshold)
    | some ll => ll.map (thrCellsR mask_threshold)
  raw.map (fun cells => if use_cc then largestComp cells else cells)

/-- The frames giving the shape of the produced per-frame masks. -/
noncomputable def fgShapes (mask : Option (List (Frame ℝ)))
    (filtered : List (Frame ℚ)) : List (Frame ℚ) :=
  match mask with
  | none => filtered
  | some ll => ll.map (fun f => f.map (fun row => row.map (fun _ => 0)))

/-- Indicator frame of a cell set over a given frame shape. -/
def indicatorFrame (shape : Frame ℚ) (cells : List Cell) : Frame ℚ :=
  shape.mapIdx (fun i row => row.mapIdx (fun j _ =>
    if cells.contains (i, j) then 1 else 0))

/-- Modelled from the spec: `get_frame_features` from
moseq2_extract.extract.proc (module absent from the analysed sources) — selects
foreground per frame (likelihood thresholded at `mask_threshold` when a mask is
supplied, else filtered frames thresholded at `frame_threshold`), optionally
keeps the largest connected component, and fits a second-moment descriptor;
frames with empty foreground get missing centroid/orientation (not zero).
Returns the features and the parallel boolean foreground masks. -/
noncomputable def get_frame_features (frame_threshold mask_threshold : ℚ)
    (use_cc : Bool) (mask : Option (List (Frame ℝ))) (filtered : List (Frame ℚ)) :
    Features × List (Frame ℚ) :=
  let cells := fgCellsList frame_threshold mask_threshold use_cc mask filtered
  ({ centroid := cells.map centroidOf,
     orientation := cells.map orientOf,
     axes := cells.map axesOf },
   List.zipWith indicatorFrame (fgShapes mask filtered) cells)

/-- The per-frame pose used by the crop/rotate aligner. -/
structure Pose where
  cr : ℚ
  pcc : ℚ
  theta : ℝ

/-- Per-frame poses from features: present only when both centroid and
orientation are present. -/
def posesOf (feats : Features) : List (Option Pose) :=
  List.zipWith (fun cent o => match cent, o with
    | some q, some th => some ⟨q.1, q.2, th⟩
    | _, _ => none) feats.centroid feats.orientation

/-- Rounding of a real coordinate to the nearest integer pixel index. -/
noncomputable def rround (x : ℝ) : ℤ := ⌊x + 1 / 2⌋

/-- Modelled from the spec: one pose-normalised fixed-size window — translate
so the centroid is at the crop center, rotate by the negative orientation,
zero-pad outside the source bounds; a missing pose yields an all-zero crop. -/
noncomputable def cropFrameAt {α : Type} (z : α) (cs : ℕ × ℕ) (pose : Option Pose)
    (f : Frame α) : Frame α :=
  match pose with
  | none => constFrame z cs
  | some p =>
    (List.range cs.1).map (fun i => (List.range cs.2).map (fun j =>
      let di : ℝ := (i : ℝ) - ((cs.1 / 2 : ℕ) : ℝ)
      let dj : ℝ := (j : ℝ) - ((cs.2 / 2 : ℕ) : ℝ)
      let sr : ℝ := (p.cr : ℝ) + (Real.cos p.theta * di + Real.sin p.theta * dj)
      let sc : ℝ := (p.pcc : ℝ) + (Real.cos p.theta * dj - Real.sin p.theta * di)
      (pget f (rround sr) (rround sc)).getD z))

/-- Modelled from the spec: `crop_and_rotate_frames` from
moseq2_extract.extract.proc (module absent from the analysed sources) — the
same per-frame centroid/orientation applied to every source array; output
shape (T, crop h, crop w); missing pose gives a zero crop. -/
noncomputable def crop_and_rotate_frames {α : Type} (z : α) (cs : ℕ × ℕ)
    (feats : Features) (frames : List (Frame α)) : List (Frame α) :=
  List.zipWith (cropFrameAt z cs) (posesOf feats) frames

/-- A flip classifier: the capability of scoring a cropped frame with a flip
probability. -/
abbrev FlipClassifier := Frame ℚ → ℚ

/-- Modelled from the spec: `get_flips` from moseq2_extract.extract.proc
(module absent from the analysed sources) — score every cropped frame, smooth
the probabilities over a temporal window (median, reduced at the boundaries),
threshold at 0.5. -/
def get_flips (classifier : FlipClassifier) (flip_smoothing : ℕ)
    (crops : List (Frame ℚ)) : List Bool :=
  let probs := crops.map classifier
  let smoothed := probs.mapIdx (fun t _ => medianQ (windowVals probs t (flip_smoothing / 2)))
  smoothed.map (fun q => decide ((1 : ℚ) / 2 < q))

end Moseq

namespace Moseq

/-- The named per-frame scalar sequences, each index-aligned with the chunk. -/
structure Scalars where
  height_ave : List (Option ℚ)
  velocity : List (Option ℝ)
  bodyLength : List (Option ℝ)
  width : List (Option ℝ)
  angVel : List (Option ℝ)

/-- Mean height of the cropped pixels inside [min_height, max_height];
pixels outside the range are excluded, not clamped; missing if no pixel
qualifies. -/
def heightAve (min_height max_height : ℚ) (f : Frame ℚ) : Option ℚ :=
  match (flattenF f).filter (fun x => decide (min_height ≤ x) && decide (x ≤ max_height)) with
  | [] => none
  | xs => some (xs.sum / (xs.length : ℚ))

/-- Euclidean distance between two optional centroids; missing when either is
missing. -/
noncomputable def velStep (a b : Option (ℚ × ℚ)) : Option ℝ :=
  match b, a with
  | some r, some q =>
    some (Real.sqrt ((((r.1 - q.1 : ℚ)) : ℝ) ^ 2 + (((r.2 - q.2 : ℚ)) : ℝ) ^ 2))
  | _, _ => none

/-- Centroid velocity by finite differences across consecutive frames; missing
at the first frame and wherever either endpoint centroid is missing. -/
noncomputable def velSeq (cents : List (Option (ℚ × ℚ))) : List (Option ℝ) :=
  cents.mapIdx (fun i _ =>
    if i = 0 then none else velStep (cents[i - 1]?.join) (cents[i]?.join))

/-- Signed difference of two optional orientations; missing when either is
missing. -/
noncomputable def angStep (a b : Option ℝ) : Option ℝ :=
  match b, a with
  | some r, some q => some (r - q)
  | _, _ => none

/-- Angular velocity by finite differences of orientation; missing at the
first frame and wherever either endpoint orientation is missing. -/
noncomputable def angSeq (os : List (Option ℝ)) : List (Option ℝ) :=
  os.mapIdx (fun i _ =>
    if i = 0 then none else angStep (os[i - 1]?.join) (os[i]?.join))

/-- Modelled from the spec: `compute_scalars` from moseq2_extract.extract.proc
(module absent from the analysed sources) — height statistics over the cropped
filtered frames restricted to [min_height, max_height], geometric scalars from
the ellipse axes, motion scalars by finite differences across consecutive valid
frames with gaps left missing. -/
noncomputable def compute_scalars (crops : List (Frame ℚ)) (feats : Features)
    (min_height max_height : ℚ) : Scalars :=
  { height_ave := crops.map (heightAve min_height max_height),
    velocity := velSeq feats.centroid,
    bodyLength := feats.axes.map (Option.map (fun a => a.1)),
    width := feats.axes.map (Option.map (fun a => a.2)),
    angVel := angSeq feats.orientation }

/-- numpy modulo for reals: `a - m * floor (a / m)`. -/
noncomputable def npMod (a m : ℝ) : ℝ := a - m * ⌊a / m⌋

/-- One step of np.unwrap with default discontinuity pi and period 2 pi: a
difference of magnitude below pi passes through; otherwise it is wrapped into
[-pi, pi), with the boundary value -pi mapped to pi when the raw difference is
positive. -/
noncomputable def wrapStep (dd : ℝ) : ℝ :=
  if |dd| < Real.pi then dd
  else if npMod (dd + Real.pi) (2 * Real.pi) - Real.pi = -Real.pi ∧ 0 < dd then Real.pi
  else npMod (dd + Real.pi) (2 * Real.pi) - Real.pi

/-- The tail of np.unwrap: walk the signal keeping the previous original value
and the previous unwrapped value. -/
noncomputable def unwrapAux (prevOrig prevUnw : ℝ) : List ℝ → List ℝ
  | [] => []
  | y :: ys =>
    (prevUnw + wrapStep (y - prevOrig)) ::
      unwrapAux y (prevUnw + wrapStep (y - prevOrig)) ys

/-- np.unwrap with default parameters: the first element is kept, every later
element differs from its predecessor by the wrapped step. -/
noncomputable def unwrap : List ℝ → List ℝ
  | [] => []
  | x :: xs => x :: unwrapAux x x xs

/-- Write values back into the non-missing positions of the template, in
order (numpy boolean-mask fancy assignment). -/
def scatterVals : List (Option ℝ) → List ℝ → List (Option ℝ)
  | [], _ => []
  | none :: os, vs => none :: scatterVals os vs
  | some _ :: os, [] => some 0 :: scatterVals os []
  | some _ :: os, v :: vs => some v :: scatterVals os vs

/-- Lines 94-96 of extract.py: gather the non-missing orientations, double
them, np.unwrap, halve, and write them back in place; missing entries are
excluded from the unwrap and stay missing. -/
noncomputable def unwrapStage (os : List (Option ℝ)) : List (Option ℝ) :=
  scatterVals os ((unwrap ((os.filterMap id).map (fun x => x * 2))).map (fun x => x / 2))

/-- The keyword parameters of `extract_chunk` (extract.py lines 12-23).
`save_path` and `progress_bar` are omitted: they do not influence the returned
arrays. -/
structure ExtractParams where
  use_em_tracker : Bool := false
  prefilter_space : List ℕ := [3]
  prefilter_time : Option ℕ := none
  iters_tail : ℕ := 1
  iters_min : ℕ := 0
  strel_tail : Strel := strelEllipse9
  strel_min : Strel := strelRect5
  min_height : ℚ := 10
  max_height : ℚ := 100
  mask_threshold : ℚ := -20
  use_cc : Bool := false
  bground : Option (Frame ℚ) := none
  roi : Option (Frame ℚ) := none
  rho_mean : ℚ := 0
  rho_cov : ℚ := 0
  flip_classifier : Option FlipClassifier := none
  flip_smoothing : ℕ := 51
  crop_size : ℕ × ℕ := (80, 80)

/-- Denoising stage (extract.py lines 35-42). -/
def filteredOf (p : ExtractParams) (chunk : List (Frame ℚ)) : List (Frame ℚ) :=
  clean_frames p.prefilter_space p.prefilter_time p.iters_tail p.strel_tail
    p.iters_min p.strel_min chunk

/-- Tracking stage (extract.py lines 47-54): parameters estimated from the
filtered frames, likelihood scored over the raw chunk; `None` when the tracker
is disabled. -/
noncomputable def llRawOf (p : ExtractParams) (chunk : List (Frame ℚ)) :
    Option (List (Frame ℝ)) :=
  if p.use_em_tracker then
    some (em_get_ll chunk (em_tracking p.rho_mean p.rho_cov (filteredOf p chunk)))
  else none

/-- Feature stage (extract.py lines 59-63): features of the filtered frames,
with the likelihood as mask when tracking is enabled. -/
noncomputable def featsOf (p : ExtractParams) (chunk : List (Frame ℚ)) : Features :=
  (get_frame_features p.min_height p.mask_threshold p.use_cc (llRawOf p chunk)
    (filteredOf p chunk)).1

/-- The per-frame foreground masks produced alongside the features. -/
noncomputable def maskOf (p : ExtractParams) (chunk : List (Frame ℚ)) : List (Frame ℚ) :=
  (get_frame_features p.min_height p.mask_threshold p.use_cc (llRawOf p chunk)
    (filteredOf p chunk)).2

/-- Crop stage, raw chunk (extract.py lines 68-69). -/
noncomputable def croppedRawOf (p : ExtractParams) (chunk : List (Frame ℚ)) :
    List (Frame ℚ) :=
  crop_and_rotate_frames 0 p.crop_size (featsOf p chunk) chunk

/-- Crop stage, filtered frames (extract.py lines 70-71). -/
noncomputable def croppedFilteredOf (p : ExtractParams) (chunk : List (Frame ℚ)) :
    List (Frame ℚ) :=
  crop_and_rotate_frames 0 p.crop_size (featsOf p chunk) (filteredOf p chunk)

/-- Crop stage, foreground mask (extract.py lines 72-73). -/
noncomputable def croppedMaskOf (p : ExtractParams) (chunk : List (Frame ℚ)) :
    List (Frame ℚ) :=
  crop_and_rotate_frames 0 p.crop_size (featsOf p chunk) (maskOf p chunk)

/-- Crop stage, likelihood (extract.py lines 75-79): `None` when tracking is
disabled. -/
noncomputable def croppedLlOf (p : ExtractParams) (chunk : List (Frame ℚ)) :
    Option (List (Frame ℝ)) :=
  match llRawOf p chunk with
  | none => none
  | some ll => some (crop_and_rotate_frames (0 : ℝ) p.crop_size (featsOf p chunk) ll)

/-- Flip decisions (extract.py line 83): computed from the cropped raw frames
when a classifier is supplied, `None` otherwise. -/
noncomputable def flipsOf (p : ExtractParams) (chunk : List (Frame ℚ)) :
    Option (List Bool) :=
  p.flip_classifier.map
    (fun classifier => get_flips classifier p.flip_smoothing (croppedRawOf p chunk))

/-- Cropped raw frames after flip correction (extract.py line 84). -/
noncomputable def depthFramesOf (p : ExtractParams) (chunk : List (Frame ℚ)) :
    List (Frame ℚ) :=
  match flipsOf p chunk with
  | none => croppedRawOf p chunk
  | some fl => applyFlips fl (croppedRawOf p chunk)

/-- Cropped filtered frames after flip correction (extract.py line 85). -/
noncomputable def filteredPostOf (p : ExtractParams) (chunk : List (Frame ℚ)) :
    List (Frame ℚ) :=
  match flipsOf p chunk with
  | none => croppedFilteredOf p chunk
  | some fl => applyFlips fl (croppedFilteredOf p chunk)

/-- Cropped mask frames after flip correction (extract.py line 86). -/
noncomputable def maskFramesOf (p : ExtractParams) (chunk : List (Frame ℚ)) :
    List (Frame ℚ) :=
  match flipsOf p chunk with
  | none => croppedMaskOf p chunk
  | some fl => applyFlips fl (croppedMaskOf p chunk)

/-- Cropped likelihood after the flip branch, exactly as written on extract.py
line 90: `cropped_ll = np.flip(cropped_ll[flips, ...], axis=2)` — the array is
rebound to the mirrored boolean-selected subset, not updated in place. -/
noncomputable def llFramesOf (p : ExtractParams) (chunk : List (Frame ℚ)) :
    Option (List (Frame ℝ)) :=
  match flipsOf p chunk, croppedLlOf p chunk with
  | some fl, some cl => some ((boolSelect fl cl).map flipHoriz)
  | none, cl => cl
  | some _, none => none

/-- Orientation after the flip branch (extract.py line 87): pi added at frames
flagged flipped; a missing orientation stays missing (NaN + pi = NaN). -/
noncomputable def orientPostFlipOf (p : ExtractParams) (chunk : List (Frame ℚ)) :
    List (Option ℝ) :=
  match flipsOf p chunk with
  | none => (featsOf p chunk).orientation
  | some fl =>
    List.zipWith (fun b o => if b then Option.map (fun th => th + Real.pi) o else o)
      fl (featsOf p chunk).orientation

/-- Orientation after the unwrap stage (extract.py lines 94-96). -/
noncomputable def orientFinalOf (p : ExtractParams) (chunk : List (Frame ℚ)) :
    List (Option ℝ) :=
  unwrapStage (orientPostFlipOf p chunk)

/-- The features as they stand when compute_scalars reads them (line 100):
centroid and axes untouched, orientation flip-corrected and unwrapped. -/
noncomputable def featsFinalOf (p : ExtractParams) (chunk : List (Frame ℚ)) : Features :=
  { centroid := (featsOf p chunk).centroid,
    orientation := orientFinalOf p chunk,
    axes := (featsOf p chunk).axes }

/-- Scalar stage (extract.py lines 100-101): scalars over the cropped filtered
frames and the final features. -/
noncomputable def scalarsOf (p : ExtractParams) (chunk : List (Frame ℚ)) : Scalars :=
  compute_scalars (filteredPostOf p chunk) (featsFinalOf p chunk) p.min_height p.max_height

/-- The bundle returned by extract_chunk (extract.py lines 103-109). -/
structure ExtractResult where
  depth_frames : List (Frame ℚ)
  mask_frames : List (Frame ℚ)
  ll_frames : Option (List (Frame ℝ))
  scalars : Scalars
  flips : Option (List Bool)

/-- The pipeline body of extract_chunk after the bground/roi guards (extract.py
lines 33-111). -/
noncomputable def extractPipeline (p : ExtractParams) (chunk : List (Frame ℚ)) :
    ExtractResult :=
  { depth_frames := depthFramesOf p chunk,
    mask_frames := maskFramesOf p chunk,
    ll_frames := llFramesOf p chunk,
    scalars := scalarsOf p chunk,
    flips := flipsOf p chunk }

/-- extract_chunk (extract.py lines 12-111), including the `if bground:` and
`if roi:` array-truthiness guards of lines 27-31; a numpy `ValueError` raised
by either guard is an `Except.error`. -/
noncomputable def extract_chunk (p : ExtractParams) (chunk0 : List (Frame ℚ)) :
    Except String ExtractResult :=
  match guardTruthy p.bground with
  | .error e => .error e
  | .ok bT =>
    let chunk1 := if bT then bgSubtract ((p.bground).getD []) chunk0 else chunk0
    match guardTruthy p.roi with
    | .error e => .error e
    | .ok rT =>
      let chunk2 := if rT then apply_roi chunk1 else chunk1
      .ok (extractPipeline p chunk2)

end Moseq

namespace Moseq

/-- Number of true flip decisions. -/
def countTrue (l : List Bool) : ℕ := (l.filter id).length

/-- A 2 × 2 all-zero frame: a typical multi-element background or ROI array. -/
def frame2x2 : Frame ℚ := [[0, 0], [0, 0]]

/-- A 1 × 2 frame, the smallest array with more than one element. -/
def rowFrame : Frame ℚ := [[0, 0]]

/-- A one-element truthy frame, which passes the array-truthiness guard. -/
def oneFrame : Frame ℚ := [[5]]

/-- A one-element truthy frame with a different value. -/
def oneFrameB : Frame ℚ := [[7]]

/-- A one-frame 2 × 2 chunk with nonzero pixels. -/
def chunkA : List (Frame ℚ) := [[[1, 2], [3, 4]]]

/-- A one-frame all-zero chunk: no pixel exceeds any positive threshold. -/
def zeroChunk : List (Frame ℚ) := [[[0, 0], [0, 0]]]

/-- A classifier scoring every cropped frame as a sure flip. -/
def constFlipClassifier : FlipClassifier := fun _ => 1

/-- Parameters with the EM tracker enabled. -/
def emParams : ExtractParams := { use_em_tracker := true }

/-- Parameters with the EM tracker and a flip classifier enabled. -/
def emFlipParams : ExtractParams :=
  { use_em_tracker := true, flip_classifier := some constFlipClassifier }

/-- Default parameters (no tracking, no classifier, no background, no ROI). -/
def defaultParams : ExtractParams := {}

theorem spatialFilter_cons (k : ℕ) (ks : List ℕ) (ch : List (Frame ℚ)) :
    spatialFilter (k :: ks) ch = spatialFilter ks (ch.map (medianFilterFrame (k / 2))) := rfl

theorem spatialFilter_length (sizes : List ℕ) (ch : List (Frame ℚ)) :
    (spatialFilter sizes ch).length = ch.length := by
  induction sizes generalizing ch with
  | nil => rfl
  | cons k ks ih =>
    rw [spatialFilter_cons, ih, List.length_map]

theorem temporalFilter_length (w : ℕ) (ch : List (Frame ℚ)) :
    (temporalFilter w ch).length = ch.length := List.length_mapIdx

theorem clean_frames_length (ps : List ℕ) (pt : Option ℕ) (it : ℕ) (st : Strel)
    (im : ℕ) (sm : Strel) (chunk : List (Frame ℚ)) :
    (clean_frames ps pt it st im sm chunk).length = chunk.length := by
  unfold clean_frames
  cases pt <;>
    simp [List.length_map, temporalFilter_length, spatialFilter_length]

theorem em_tracking_length (rm rc : ℚ) (frames : List (Frame ℚ)) :
    (em_tracking rm rc frames).length = frames.length := by
  unfold em_tracking
  rw [List.length_tail, List.length_scanl]
  rfl

theorem em_get_ll_length (chunk : List (Frame ℚ)) (params : List TrackerState) :
    (em_get_ll chunk params).length = min chunk.length params.length := by
  unfold em_get_ll
  exact List.length_zipWith _ _ _

theorem fgCellsList_length (ft mt : ℚ) (cc : Bool) (mask : Option (List (Frame ℝ)))
    (filtered : List (Frame ℚ)) :
    (fgCellsList ft mt cc mask filtered).length =
      match mask with
      | none => filtered.length
      | some ll => ll.length := by
  unfold fgCellsList
  cases mask <;> simp

theorem llRawOf_length (p : ExtractParams) (chunk : List (Frame ℚ)) :
    (llRawOf p chunk).map List.length =
      if p.use_em_tracker then some chunk.length else none := by
  unfold llRawOf
  cases h : p.use_em_tracker <;>
    simp [em_get_ll_length, em_tracking_length, filteredOf, clean_frames_length]

end Moseq

namespace Moseq

theorem llRawOf_none_iff (p : ExtractParams) (chunk : List (Frame ℚ)) :
    llRawOf p chunk = none ↔ p.use_em_tracker = false := by
  unfold llRawOf
  cases p.use_em_tracker <;> simp

theorem llRawOf_some_length (p : ExtractParams) (chunk : List (Frame ℚ))
    (ll : List (Frame ℝ)) (h : llRawOf p chunk = some ll) :
    ll.length = chunk.length := by
  have h2 := llRawOf_length p chunk
  rw [h] at h2
  cases he : p.use_em_tracker
  · rw [he] at h2
    simp at h2
  · rw [he] at h2
    simpa using h2

theorem cellsListOf_length (p : ExtractParams) (chunk : List (Frame ℚ)) :
    (fgCellsList p.min_height p.mask_threshold p.use_cc (llRawOf p chunk)
      (filteredOf p chunk)).length = chunk.length := by
  have h := fgCellsList_length p.min_height p.mask_threshold p.use_cc
    (llRawOf p chunk) (filteredOf p chunk)
  cases hm : llRawOf p chunk with
  | none =>
    rw [hm] at h
    simpa [filteredOf, clean_frames_length] using h
  | some ll =>
    rw [hm] at h
    simp only [] at h
    rw [h]
    exact llRawOf_some_length p chunk ll hm

theorem fgShapesOf_length (p : ExtractParams) (chunk : List (Frame ℚ)) :
    (fgShapes (llRawOf p chunk) (filteredOf p chunk)).length = chunk.length := by
  cases hm : llRawOf p chunk with
  | none => simp [fgShapes, filteredOf, clean_frames_length]
  | some ll => simpa [fgShapes] using llRawOf_some_length p chunk ll hm

theorem featsOf_centroid_length (p : ExtractParams) (chunk : List (Frame ℚ)) :
    (featsOf p chunk).centroid.length = chunk.length := by
  unfold featsOf get_frame_features
  simpa using cellsListOf_length p chunk

theorem featsOf_orientation_length (p : ExtractParams) (chunk : List (Frame ℚ)) :
    (featsOf p chunk).orientation.length = chunk.length := by
  unfold featsOf get_frame_features
  simpa using cellsListOf_length p chunk

theorem featsOf_axes_length (p : ExtractParams) (chunk : List (Frame ℚ)) :
    (featsOf p chunk).axes.length = chunk.length := by
  unfold featsOf get_frame_features
  simpa using cellsListOf_length p chunk

theorem maskOf_length (p : ExtractParams) (chunk : List (Frame ℚ)) :
    (maskOf p chunk).length = chunk.length := by
  unfold maskOf get_frame_features
  simpa [List.length_zipWith, fgShapesOf_length] using
    (by rw [fgShapesOf_length, cellsListOf_length, min_self] :
      min (fgShapes (llRawOf p chunk) (filteredOf p chunk)).length
        (fgCellsList p.min_height p.mask_threshold p.use_cc (llRawOf p chunk)
          (filteredOf p chunk)).length = chunk.length)

theorem posesOf_length (feats : Features) :
    (posesOf feats).length = min feats.centroid.length feats.orientation.length :=
  List.length_zipWith _ _ _

theorem posesOf_featsOf_length (p : ExtractParams) (chunk : List (Frame ℚ)) :
    (posesOf (featsOf p chunk)).length = chunk.length := by
  rw [posesOf_length, featsOf_centroid_length, featsOf_orientation_length, min_self]

theorem crop_and_rotate_frames_length {α : Type} (z : α) (cs : ℕ × ℕ)
    (feats : Features) (frames : List (Frame α)) :
    (crop_and_rotate_frames z cs feats frames).length =
      min (posesOf feats).length frames.length :=
  List.length_zipWith _ _ _

theorem croppedRawOf_length (p : ExtractParams) (chunk : List (Frame ℚ)) :
    (croppedRawOf p chunk).length = chunk.length := by
  unfold croppedRawOf
  rw [crop_and_rotate_frames_length, posesOf_featsOf_length, min_self]

theorem croppedFilteredOf_length (p : ExtractParams) (chunk : List (Frame ℚ)) :
    (croppedFilteredOf p chunk).length = chunk.length := by
  unfold croppedFilteredOf
  rw [crop_and_rotate_frames_length, posesOf_featsOf_length, filteredOf,
    clean_frames_length, min_self]

theorem croppedMaskOf_length (p : ExtractParams) (chunk : List (Frame ℚ)) :
    (croppedMaskOf p chunk).length = chunk.length := by
  unfold croppedMaskOf
  rw [crop_and_rotate_frames_length, posesOf_featsOf_length, maskOf_length, min_self]

theorem croppedLlOf_some_length (p : ExtractParams) (chunk : List (Frame ℚ))
    (cl : List (Frame ℝ)) (h : croppedLlOf p chunk = some cl) :
    cl.length = chunk.length := by
  unfold croppedLlOf at h
  cases hm : llRawOf p chunk with
  | none => rw [hm] at h; exact absurd h (by simp)
  | some ll =>
    rw [hm] at h
    simp only [Option.some.injEq] at h
    rw [← h, crop_and_rotate_frames_length, posesOf_featsOf_length,
      llRawOf_some_length p chunk ll hm, min_self]

theorem croppedLlOf_none_iff (p : ExtractParams) (chunk : List (Frame ℚ)) :
    croppedLlOf p chunk = none ↔ p.use_em_tracker = false := by
  unfold croppedLlOf
  cases hm : llRawOf p chunk with
  | none => simpa using (llRawOf_none_iff p chunk).mp hm
  | some ll =>
    simp only []
    constructor
    · intro h
      exact absurd h (by simp)
    · intro h
      rw [← llRawOf_none_iff p chunk] at h
      rw [hm] at h
      exact absurd h (by simp)

theorem get_flips_length (classifier : FlipClassifier) (w : ℕ) (crops : List (Frame ℚ)) :
    (get_flips classifier w crops).length = crops.length := by
  unfold get_flips
  simp

theorem flipsOf_none_iff (p : ExtractParams) (chunk : List (Frame ℚ)) :
    flipsOf p chunk = none ↔ p.flip_classifier = none := by
  unfold flipsOf
  cases p.flip_classifier <;> simp

theorem flipsOf_some_length (p : ExtractParams) (chunk : List (Frame ℚ))
    (fl : List Bool) (h : flipsOf p chunk = some fl) : fl.length = chunk.length := by
  unfold flipsOf at h
  cases hc : p.flip_classifier with
  | none => rw [hc] at h; exact absurd h (by simp)
  | some classifier =>
    rw [hc] at h
    simp only [Option.map_some', Option.some.injEq] at h
    rw [← h, get_flips_length, croppedRawOf_length]

theorem applyFlips_length {α : Type} (fl : List Bool) (xs : List (Frame α)) :
    (applyFlips fl xs).length = min fl.length xs.length :=
  List.length_zipWith _ _ _

end Moseq

namespace Moseq

theorem unwrapAux_length (po pu : ℝ) (l : List ℝ) :
    (unwrapAux po pu l).length = l.length := by
  induction l generalizing po pu with
  | nil => rfl
  | cons y ys ih => simp [unwrapAux, ih]

theorem unwrap_length (l : List ℝ) : (unwrap l).length = l.length := by
  cases l with
  | nil => rfl
  | cons x xs => simp [unwrap, unwrapAux_length]

theorem scatterVals_length (os : List (Option ℝ)) (vs : List ℝ) :
    (scatterVals os vs).length = os.length := by
  induction os generalizing vs with
  | nil => rfl
  | cons o os ih =>
    cases o with
    | none => simp [scatterVals, ih]
    | some x => cases vs <;> simp [scatterVals, ih]

theorem unwrapStage_length (os : List (Option ℝ)) :
    (unwrapStage os).length = os.length := by
  unfold unwrapStage
  rw [scatterVals_length]

theorem orientPostFlipOf_length (p : ExtractParams) (chunk : List (Frame ℚ)) :
    (orientPostFlipOf p chunk).length = chunk.length := by
  unfold orientPostFlipOf
  cases hf : flipsOf p chunk with
  | none => exact featsOf_orientation_length p chunk
  | some fl =>
    rw [List.length_zipWith, featsOf_orientation_length,
      flipsOf_some_length p chunk fl hf, min_self]

theorem orientFinalOf_length (p : ExtractParams) (chunk : List (Frame ℚ)) :
    (orientFinalOf p chunk).length = chunk.length := by
  unfold orientFinalOf
  rw [unwrapStage_length, orientPostFlipOf_length]

theorem depthFramesOf_length (p : ExtractParams) (chunk : List (Frame ℚ)) :
    (depthFramesOf p chunk).length = chunk.length := by
  unfold depthFramesOf
  cases hf : flipsOf p chunk with
  | none => exact croppedRawOf_length p chunk
  | some fl =>
    rw [applyFlips_length, flipsOf_some_length p chunk fl hf,
      croppedRawOf_length, min_self]

theorem filteredPostOf_length (p : ExtractParams) (chunk : List (Frame ℚ)) :
    (filteredPostOf p chunk).length = chunk.length := by
  unfold filteredPostOf
  cases hf : flipsOf p chunk with
  | none => exact croppedFilteredOf_length p chunk
  | some fl =>
    rw [applyFlips_length, flipsOf_some_length p chunk fl hf,
      croppedFilteredOf_length, min_self]

theorem maskFramesOf_length (p : ExtractParams) (chunk : List (Frame ℚ)) :
    (maskFramesOf p chunk).length = chunk.length := by
  unfold maskFramesOf
  cases hf : flipsOf p chunk with
  | none => exact croppedMaskOf_length p chunk
  | some fl =>
    rw [applyFlips_length, flipsOf_some_length p chunk fl hf,
      croppedMaskOf_length, min_self]

theorem velSeq_length (cents : List (Option (ℚ × ℚ))) :
    (velSeq cents).length = cents.length := List.length_mapIdx

theorem angSeq_length (os : List (Option ℝ)) :
    (angSeq os).length = os.length := List.length_mapIdx

theorem boolSelect_length {α : Type} (fl : List Bool) (xs : List α)
    (h : fl.length = xs.length) :
    (boolSelect fl xs).length = countTrue fl := by
  induction fl generalizing xs with
  | nil => rfl
  | cons b bs ih =>
    cases xs with
    | nil => exact absurd h (by simp)
    | cons x xs2 =>
      have h2 : bs.length = xs2.length := by simpa using h
      cases b <;> simp [boolSelect, countTrue, List.filterMap_cons] <;>
        simpa [boolSelect, countTrue] using ih xs2 h2

theorem llFramesOf_length_map (p : ExtractParams) (chunk : List (Frame ℚ)) :
    (llFramesOf p chunk).map List.length =
      if p.use_em_tracker then
        some (match flipsOf p chunk with
          | none => chunk.length
          | some fl => countTrue fl)
      else none := by
  unfold llFramesOf
  cases hf : flipsOf p chunk with
  | none =>
    cases hcl : croppedLlOf p chunk with
    | none =>
      have he := (croppedLlOf_none_iff p chunk).mp hcl
      simp [he]
    | some cl =>
      have he : p.use_em_tracker = true := by
        cases he2 : p.use_em_tracker
        · exact absurd hcl (by rw [(croppedLlOf_none_iff p chunk).mpr he2]; simp)
        · rfl
      simp [he, croppedLlOf_some_length p chunk cl hcl]
  | some fl =>
    cases hcl : croppedLlOf p chunk with
    | none =>
      have he := (croppedLlOf_none_iff p chunk).mp hcl
      simp [he]
    | some cl =>
      have he : p.use_em_tracker = true := by
        cases he2 : p.use_em_tracker
        · exact absurd hcl (by rw [(croppedLlOf_none_iff p chunk).mpr he2]; simp)
        · rfl
      have hlen : fl.length = cl.length := by
        rw [flipsOf_some_length p chunk fl hf, croppedLlOf_some_length p chunk cl hcl]
      simp [he, boolSelect_length fl cl hlen]

end Moseq

namespace Moseq

theorem scalarsOf_height_length (p : ExtractParams) (chunk : List (Frame ℚ)) :
    (scalarsOf p chunk).height_ave.length = chunk.length := by
  unfold scalarsOf compute_scalars
  simp [filteredPostOf_length]

theorem scalarsOf_velocity_length (p : ExtractParams) (chunk : List (Frame ℚ)) :
    (scalarsOf p chunk).velocity.length = chunk.length := by
  unfold scalarsOf compute_scalars featsFinalOf
  simp [velSeq_length, featsOf_centroid_length]

theorem scalarsOf_bodyLength_length (p : ExtractParams) (chunk : List (Frame ℚ)) :
    (scalarsOf p chunk).bodyLength.length = chunk.length := by
  unfold scalarsOf compute_scalars featsFinalOf
  simp [featsOf_axes_length]

theorem scalarsOf_width_length (p : ExtractParams) (chunk : List (Frame ℚ)) :
    (scalarsOf p chunk).width.length = chunk.length := by
  unfold scalarsOf compute_scalars featsFinalOf
  simp [featsOf_axes_length]

theorem scalarsOf_angVel_length (p : ExtractParams) (chunk : List (Frame ℚ)) :
    (scalarsOf p chunk).angVel.length = chunk.length := by
  unfold scalarsOf compute_scalars featsFinalOf
  simp [angSeq_length, orientFinalOf_length]

theorem flipsOf_length_map (p : ExtractParams) (chunk : List (Frame ℚ)) :
    (flipsOf p chunk).map List.length = (p.flip_classifier).map (fun _ => chunk.length) := by
  unfold flipsOf
  cases p.flip_classifier with
  | none => rfl
  | some classifier => simp [get_flips_length, croppedRawOf_length]

theorem extract_chunk_guards_ok (p : ExtractParams) (chunk : List (Frame ℚ))
    (hb : p.bground = none) (hr : p.roi = none) :
    extract_chunk p chunk = .ok (extractPipeline p chunk) := by
  unfold extract_chunk
  rw [hb, hr]
  rfl

end Moseq

namespace Moseq

/-- C1: the claim states that every non-absent array returned by extract_chunk
for a chunk of length T has length T, for every combination of use_em_tracker
and flip_classifier. As proved against the code: depth frames, mask frames,
every scalar sequence and the flip vector do have length T, but the ll_frames
entry has length T only when no classifier runs — when tracking and a flip
classifier are both enabled, line 90 of extract.py rebinds the cropped
likelihood to the boolean-selected subset, so its length is the number of true
flip decisions, not T. -/
theorem extract_result_lengths (p : ExtractParams) (chunk : List (Frame ℚ)) :
    (extractPipeline p chunk).depth_frames.length = chunk.length ∧
    (extractPipeline p chunk).mask_frames.length = chunk.length ∧
    (extractPipeline p chunk).scalars.height_ave.length = chunk.length ∧
    (extractPipeline p chunk).scalars.velocity.length = chunk.length ∧
    (extractPipeline p chunk).scalars.bodyLength.length = chunk.length ∧
    (extractPipeline p chunk).scalars.width.length = chunk.length ∧
    (extractPipeline p chunk).scalars.angVel.length = chunk.length ∧
    ((extractPipeline p chunk).flips).map List.length =
      (p.flip_classifier).map (fun _ => chunk.length) ∧
    ((extractPipeline p chunk).ll_frames).map List.length =
      (if p.use_em_tracker then
        some (match flipsOf p chunk with
          | none => chunk.length
          | some fl => countTrue fl)
      else none) :=
  ⟨depthFramesOf_length p chunk, maskFramesOf_length p chunk,
   scalarsOf_height_length p chunk, scalarsOf_velocity_length p chunk,
   scalarsOf_bodyLength_length p chunk, scalarsOf_width_length p chunk,
   scalarsOf_angVel_length p chunk, flipsOf_length_map p chunk,
   llFramesOf_length_map p chunk⟩

end Moseq

namespace Moseq

theorem flipHoriz_flipHoriz {α : Type} (f : Frame α) : flipHoriz (flipHoriz f) = f := by
  simp [flipHoriz, List.map_map, Function.comp_def, List.reverse_reverse]

theorem use_em_of_croppedLl_some (p : ExtractParams) (chunk : List (Frame ℚ))
    (cl : List (Frame ℝ)) (h : croppedLlOf p chunk = some cl) :
    p.use_em_tracker = true := by
  cases he : p.use_em_tracker
  · rw [(croppedLlOf_none_iff p chunk).mpr he] at h
    exact absurd h (by simp)
  · rfl

/-- C9: the mirror used by flip correction (np.flip along axis 2, extract.py
lines 84-86) is an involution: applying the same per-frame flip decisions
twice to a cropped frame stack restores it bit for bit, and mirroring a single
frame twice restores the frame. -/
theorem flip_involution (fl : List Bool) (xs : List (Frame ℚ))
    (h : fl.length = xs.length) :
    applyFlips fl (applyFlips fl xs) = xs ∧
    ∀ f : Frame ℚ, flipHoriz (flipHoriz f) = f := by
  constructor
  · induction fl generalizing xs with
    | nil =>
      cases xs with
      | nil => rfl
      | cons x xs2 => exact absurd h (by simp)
    | cons b bs ih =>
      cases xs with
      | nil => exact absurd h (by simp)
      | cons x xs2 =>
        have h2 : bs.length = xs2.length := by simpa using h
        cases b <;> simp [applyFlips, flipHoriz_flipHoriz] <;>
          simpa [applyFlips] using ih xs2 h2
  · intro f
    exact flipHoriz_flipHoriz f

/-- Spot check of flip_involution at a concrete decision vector and stack. -/
theorem flip_involution_spot :
    applyFlips [true, false] (applyFlips [true, false]
      ([[[1, 2]], [[3, 4]]] : List (Frame ℚ))) = [[[1, 2]], [[3, 4]]] :=
  (flip_involution [true, false] [[[1, 2]], [[3, 4]]] rfl).1

/-- C4: in the returned bundle, ll_frames is None exactly when the EM tracker
is disabled, and flips is None exactly when no flip classifier is supplied; in
particular with no classifier the flip decisions are reported as absent, never
as a vector of false. -/
theorem absent_entries (p : ExtractParams) (chunk : List (Frame ℚ)) :
    ((extractPipeline p chunk).ll_frames = none ↔ p.use_em_tracker = false) ∧
    ((extractPipeline p chunk).flips = none ↔ p.flip_classifier = none) := by
  constructor
  · show llFramesOf p chunk = none ↔ _
    unfold llFramesOf
    cases hf : flipsOf p chunk with
    | none =>
      cases hcl : croppedLlOf p chunk with
      | none => simpa using (croppedLlOf_none_iff p chunk).mp hcl
      | some cl => simp [use_em_of_croppedLl_some p chunk cl hcl]
    | some fl =>
      cases hcl : croppedLlOf p chunk with
      | none => simpa using (croppedLlOf_none_iff p chunk).mp hcl
      | some cl => simp [use_em_of_croppedLl_some p chunk cl hcl]
  · show flipsOf p chunk = none ↔ _
    exact flipsOf_none_iff p chunk

end Moseq

namespace Moseq

/-- C5: the crop-and-rotate step is applied with the identical per-frame poses
(centroid and orientation, extract.py lines 68-77) and the identical crop_size
to the raw chunk, the filtered chunk, the mask, and — when tracking is enabled
— the likelihood, so the four cropped stacks stay frame-aligned. -/
theorem crop_common_features (p : ExtractParams) (chunk : List (Frame ℚ)) :
    croppedRawOf p chunk =
      List.zipWith (cropFrameAt 0 p.crop_size) (posesOf (featsOf p chunk)) chunk ∧
    croppedFilteredOf p chunk =
      List.zipWith (cropFrameAt 0 p.crop_size) (posesOf (featsOf p chunk))
        (filteredOf p chunk) ∧
    croppedMaskOf p chunk =
      List.zipWith (cropFrameAt 0 p.crop_size) (posesOf (featsOf p chunk))
        (maskOf p chunk) ∧
    (∀ ll, llRawOf p chunk = some ll →
      croppedLlOf p chunk =
        some (List.zipWith (cropFrameAt (0 : ℝ) p.crop_size)
          (posesOf (featsOf p chunk)) ll)) ∧
    (croppedRawOf p chunk).length = (croppedFilteredOf p chunk).length ∧
    (croppedRawOf p chunk).length = (croppedMaskOf p chunk).length := by
  refine ⟨rfl, rfl, rfl, ?_, ?_, ?_⟩
  · intro ll h
    unfold croppedLlOf
    rw [h]
    rfl
  · rw [croppedRawOf_length, croppedFilteredOf_length]
  · rw [croppedRawOf_length, croppedMaskOf_length]

/-- Spot check of crop_common_features with the tracker enabled on the empty
chunk. -/
theorem crop_common_features_spot :
    croppedLlOf emParams [] =
      some (List.zipWith (cropFrameAt (0 : ℝ) emParams.crop_size)
        (posesOf (featsOf emParams [])) []) :=
  (crop_common_features emParams []).2.2.2.1 [] rfl

end Moseq

namespace Moseq

theorem npTruthy_error_of_size (f : Frame ℚ) (h : 1 < frameSize f) :
    npTruthy f = .error ambiguousMsg := by
  have h2 : 1 < (flattenF f).length := h
  unfold npTruthy
  cases hl : flattenF f with
  | nil =>
    rw [hl] at h2
    exact absurd h2 (by simp)
  | cons x t =>
    cases t with
    | nil =>
      rw [hl] at h2
      exact absurd h2 (by simp)
    | cons y t2 => rfl

/-- C10: a background or ROI argument that is an array with more than one
element makes extract_chunk fail with numpy ValueError at the truthiness
guards `if bground:` / `if roi:` of extract.py lines 27-31, before any
processing; and even when the ROI branch is entered, the supplied roi array is
never passed to apply_roi — two roi arguments with the same truthiness yield
identical results. -/
theorem array_truthiness_guard (p : ExtractParams) (chunk : List (Frame ℚ)) :
    (∀ bg : Frame ℚ, 1 < frameSize bg →
      extract_chunk { p with bground := some bg } chunk = .error ambiguousMsg) ∧
    (∀ r : Frame ℚ, 1 < frameSize r →
      extract_chunk { p with bground := none, roi := some r } chunk =
        .error ambiguousMsg) ∧
    (∀ r1 r2 : Frame ℚ, guardTruthy (some r1) = guardTruthy (some r2) →
      extract_chunk { p with bground := none, roi := some r1 } chunk =
        extract_chunk { p with bground := none, roi := some r2 } chunk) := by
  refine ⟨?_, ?_, ?_⟩
  · intro bg h
    unfold extract_chunk
    rw [show ({ p with bground := some bg } : ExtractParams).bground = some bg from rfl]
    rw [show guardTruthy (some bg) = .error ambiguousMsg from npTruthy_error_of_size bg h]
  · intro r h
    unfold extract_chunk
    rw [show ({ p with bground := none, roi := some r } : ExtractParams).bground = none
      from rfl]
    rw [show ({ p with bground := none, roi := some r } : ExtractParams).roi = some r
      from rfl]
    rw [show guardTruthy (some r) = .error ambiguousMsg from npTruthy_error_of_size r h]
    rfl
  · intro r1 r2 hg
    unfold extract_chunk
    rw [show ({ p with bground := none, roi := some r1 } : ExtractParams).roi = some r1
      from rfl]
    rw [show ({ p with bground := none, roi := some r2 } : ExtractParams).roi = some r2
      from rfl]
    rw [hg]
    rfl

/-- Spot check of array_truthiness_guard: a 1 × 2 background array raises, a
2 × 2 roi array raises, and two different truthy one-element roi arrays give
the same result. -/
theorem array_truthiness_guard_spot :
    extract_chunk { defaultParams with bground := some rowFrame } chunkA =
      .error ambiguousMsg ∧
    extract_chunk { defaultParams with bground := none, roi := some frame2x2 } chunkA =
      .error ambiguousMsg ∧
    extract_chunk { defaultParams with bground := none, roi := some oneFrame } chunkA =
      extract_chunk { defaultParams with bground := none, roi := some oneFrameB } chunkA :=
  ⟨(array_truthiness_guard defaultParams chunkA).1 rowFrame (by decide),
   (array_truthiness_guard defaultParams chunkA).2.1 frame2x2 (by decide),
   (array_truthiness_guard defaultParams chunkA).2.2 oneFrame oneFrameB rfl⟩

/-- C3: the spec claims a supplied background frame is applied by subtraction
and a supplied ROI mask by masking before denoising; in the code, any real
(multi-element) background or ROI array instead raises numpy ValueError at the
`if bground:` / `if roi:` truthiness guards, so neither is ever applied. This
theorem evaluates the code at concrete failing inputs. -/
theorem bground_roi_never_applied :
    extract_chunk { bground := some frame2x2 } chunkA = .error ambiguousMsg ∧
    extract_chunk { roi := some frame2x2 } chunkA = .error ambiguousMsg :=
  ⟨rfl, rfl⟩

end Moseq

namespace Moseq

/-- C7: with tracking enabled, the tracker parameters are estimated from the
filtered (denoised) chunk with the given rho_mean and rho_cov, and the
likelihood is scored over the raw, unfiltered chunk with those per-frame
smoothed parameters (extract.py lines 47-54 pass `filtered_frames` to
em_tracking and `chunk` to em_get_ll). -/
theorem tracker_estimates_filtered_scores_raw (p : ExtractParams)
    (chunk : List (Frame ℚ)) (hem : p.use_em_tracker = true) :
    llRawOf p chunk =
      some (em_get_ll chunk
        (em_tracking p.rho_mean p.rho_cov
          (clean_frames p.prefilter_space p.prefilter_time p.iters_tail p.strel_tail
            p.iters_min p.strel_min chunk))) := by
  unfold llRawOf
  rw [hem]
  rfl

/-- Spot check of tracker_estimates_filtered_scores_raw with the tracker
enabled. -/
theorem tracker_estimates_filtered_scores_raw_spot :
    llRawOf emParams chunkA =
      some (em_get_ll chunkA
        (em_tracking emParams.rho_mean emParams.rho_cov
          (clean_frames emParams.prefilter_space emParams.prefilter_time
            emParams.iters_tail emParams.strel_tail emParams.iters_min
            emParams.strel_min chunkA))) :=
  tracker_estimates_filtered_scores_raw emParams chunkA rfl

/-- C2: with a flip classifier supplied, the per-chunk flip decisions are
applied per frame to the raw crop, the filtered crop and the mask crop
(mirrored where true, unchanged where false), and pi is added to the
orientation of flipped frames; but the likelihood crop is NOT treated per
frame: line 90 of extract.py rebinds it to the mirrored boolean-selected
subset, dropping every unflipped frame instead of leaving it unchanged. -/
theorem flip_application (p : ExtractParams) (chunk : List (Frame ℚ))
    (classifier : FlipClassifier) (hc : p.flip_classifier = some classifier) :
    (extractPipeline p chunk).depth_frames =
      List.zipWith (fun b f => if b then flipHoriz f else f)
        (get_flips classifier p.flip_smoothing (croppedRawOf p chunk))
        (croppedRawOf p chunk) ∧
    filteredPostOf p chunk =
      List.zipWith (fun b f => if b then flipHoriz f else f)
        (get_flips classifier p.flip_smoothing (croppedRawOf p chunk))
        (croppedFilteredOf p chunk) ∧
    (extractPipeline p chunk).mask_frames =
      List.zipWith (fun b f => if b then flipHoriz f else f)
        (get_flips classifier p.flip_smoothing (croppedRawOf p chunk))
        (croppedMaskOf p chunk) ∧
    orientPostFlipOf p chunk =
      List.zipWith (fun b o => if b then Option.map (fun th => th + Real.pi) o else o)
        (get_flips classifier p.flip_smoothing (croppedRawOf p chunk))
        (featsOf p chunk).orientation ∧
    (∀ cl, croppedLlOf p chunk = some cl →
      (extractPipeline p chunk).ll_frames =
        some ((boolSelect
          (get_flips classifier p.flip_smoothing (croppedRawOf p chunk)) cl).map
            flipHoriz)) := by
  have hf : flipsOf p chunk =
      some (get_flips classifier p.flip_smoothing (croppedRawOf p chunk)) := by
    unfold flipsOf
    rw [hc]
    rfl
  refine ⟨?_, ?_, ?_, ?_, ?_⟩
  · show depthFramesOf p chunk = _
    unfold depthFramesOf
    rw [hf]
    rfl
  · unfold filteredPostOf
    rw [hf]
    rfl
  · show maskFramesOf p chunk = _
    unfold maskFramesOf
    rw [hf]
    rfl
  · unfold orientPostFlipOf
    rw [hf]
  · intro cl hcl
    show llFramesOf p chunk = _
    unfold llFramesOf
    rw [hf, hcl]

/-- Spot check of flip_application at concrete parameters with tracker and
classifier enabled, on the empty chunk. -/
theorem flip_application_spot :
    (extractPipeline emFlipParams []).depth_frames =
      List.zipWith (fun b f => if b then flipHoriz f else f)
        (get_flips constFlipClassifier emFlipParams.flip_smoothing
          (croppedRawOf emFlipParams []))
        (croppedRawOf emFlipParams []) ∧
    (extractPipeline emFlipParams []).ll_frames =
      some ((boolSelect
        (get_flips constFlipClassifier emFlipParams.flip_smoothing
          (croppedRawOf emFlipParams [])) []).map flipHoriz) :=
  ⟨(flip_application emFlipParams [] constFlipClassifier rfl).1,
   (flip_application emFlipParams [] constFlipClassifier rfl).2.2.2.2 [] rfl⟩

end Moseq

namespace Moseq

theorem npMod_nonneg (a m : ℝ) (hm : 0 < m) : 0 ≤ npMod a m := by
  have h1 : (⌊a / m⌋ : ℝ) ≤ a / m := Int.floor_le _
  have h2 : m * (⌊a / m⌋ : ℝ) ≤ m * (a / m) := mul_le_mul_of_nonneg_left h1 hm.le
  have h3 : m * (a / m) = a := by
    field_simp
  unfold npMod
  linarith

theorem npMod_lt (a m : ℝ) (hm : 0 < m) : npMod a m < m := by
  have h1 : a / m < (⌊a / m⌋ : ℝ) + 1 := Int.lt_floor_add_one _
  have h2 : m * (a / m) < m * ((⌊a / m⌋ : ℝ) + 1) := (mul_lt_mul_left hm).mpr h1
  have h3 : m * (a / m) = a := by
    field_simp
  have h4 : m * ((⌊a / m⌋ : ℝ) + 1) = m * (⌊a / m⌋ : ℝ) + m := by ring
  unfold npMod
  linarith

theorem abs_wrapStep_le (dd : ℝ) : |wrapStep dd| ≤ Real.pi := by
  unfold wrapStep
  by_cases h : |dd| < Real.pi
  · rw [if_pos h]
    exact h.le
  · rw [if_neg h]
    have hpi : (0 : ℝ) < 2 * Real.pi := by positivity
    have h0 : 0 ≤ npMod (dd + Real.pi) (2 * Real.pi) := npMod_nonneg _ _ hpi
    have h1 : npMod (dd + Real.pi) (2 * Real.pi) < 2 * Real.pi := npMod_lt _ _ hpi
    by_cases hb : npMod (dd + Real.pi) (2 * Real.pi) - Real.pi = -Real.pi ∧ 0 < dd
    · rw [if_pos hb, abs_of_pos Real.pi_pos]
    · rw [if_neg hb, abs_le]
      constructor <;> linarith

theorem unwrapAux_chain (l : List ℝ) : ∀ po pu : ℝ,
    List.Chain' (fun a b => |b - a| ≤ Real.pi) (pu :: unwrapAux po pu l) := by
  induction l with
  | nil =>
    intro po pu
    simp [unwrapAux]
  | cons y ys ih =>
    intro po pu
    rw [show unwrapAux po pu (y :: ys) =
      (pu + wrapStep (y - po)) :: unwrapAux y (pu + wrapStep (y - po)) ys from rfl]
    rw [List.chain'_cons]
    constructor
    · simpa using abs_wrapStep_le (y - po)
    · exact ih y (pu + wrapStep (y - po))

theorem unwrap_chain (l : List ℝ) :
    List.Chain' (fun a b => |b - a| ≤ Real.pi) (unwrap l) := by
  cases l with
  | nil => simp [unwrap]
  | cons x xs => exact unwrapAux_chain xs x x

theorem chain_half (l : List ℝ)
    (h : List.Chain' (fun a b => |b - a| ≤ Real.pi) l) :
    List.Chain' (fun a b => |b - a| ≤ Real.pi) (l.map (fun x => x / 2)) := by
  rw [List.chain'_map]
  refine h.imp ?_
  intro a b hab
  have h2 : b / 2 - a / 2 = (b - a) / 2 := by ring
  have h3 : |(b - a) / 2| = |b - a| / 2 := by
    rw [abs_div]
    norm_num
  rw [h2, h3]
  have hπ : 0 < Real.pi := Real.pi_pos
  linarith

theorem scatterVals_getElem_none (os : List (Option ℝ)) (vs : List ℝ) (i : ℕ) :
    (scatterVals os vs)[i]? = some none ↔ os[i]? = some none := by
  induction os generalizing vs i with
  | nil => simp [scatterVals]
  | cons o os ih =>
    cases o with
    | none =>
      cases i with
      | zero => simp [scatterVals]
      | succ k => simpa [scatterVals] using ih vs k
    | some x =>
      cases vs with
      | nil =>
        cases i with
        | zero => simp [scatterVals]
        | succ k => simpa [scatterVals] using ih [] k
      | cons v vs2 =>
        cases i with
        | zero => simp [scatterVals]
        | succ k => simpa [scatterVals] using ih vs2 k

theorem scatterVals_filterMap (os : List (Option ℝ)) (vs : List ℝ)
    (h : vs.length = (os.filterMap id).length) :
    (scatterVals os vs).filterMap id = vs := by
  induction os generalizing vs with
  | nil =>
    cases vs with
    | nil => rfl
    | cons v vs2 => simp at h
  | cons o os ih =>
    cases o with
    | none =>
      have h2 : vs.length = (os.filterMap id).length := by simpa using h
      simpa [scatterVals] using ih vs h2
    | some x =>
      cases vs with
      | nil => simp at h
      | cons v vs2 =>
        have h2 : vs2.length = (os.filterMap id).length := by simpa using h
        simpa [scatterVals] using ih vs2 h2

theorem unwrapStage_vals (os : List (Option ℝ)) :
    (unwrapStage os).filterMap id =
      (unwrap ((os.filterMap id).map (fun x => x * 2))).map (fun x => x / 2) := by
  unfold unwrapStage
  apply scatterVals_filterMap
  rw [List.length_map, unwrap_length, List.length_map]

/-- C6: after flip correction the orientation is unwrapped by doubling the
non-missing angles, applying np.unwrap, and halving back (extract.py lines
94-96); missing entries are excluded from the unwrap and stay missing, and all
consecutive valid orientation values differ in magnitude by at most pi. -/
theorem orientation_unwrap_continuity (p : ExtractParams) (chunk : List (Frame ℚ)) :
    orientFinalOf p chunk = unwrapStage (orientPostFlipOf p chunk) ∧
    ∀ os : List (Option ℝ),
      ((unwrapStage os).filterMap id =
        (unwrap ((os.filterMap id).map (fun x => x * 2))).map (fun x => x / 2)) ∧
      (∀ i : ℕ, (unwrapStage os)[i]? = some none ↔ os[i]? = some none) ∧
      List.Chain' (fun a b => |b - a| ≤ Real.pi) ((unwrapStage os).filterMap id) := by
  refine ⟨rfl, ?_⟩
  intro os
  refine ⟨unwrapStage_vals os, ?_, ?_⟩
  · intro i
    exact scatterVals_getElem_none os _ i
  · rw [unwrapStage_vals]
    exact chain_half _ (unwrap_chain _)

end Moseq

namespace Moseq

theorem getElem?_zipWith_some {α β γ : Type} (f : α → β → γ) (as : List α)
    (bs : List β) (i : ℕ) (a : α) (b : β) (ha : as[i]? = some a)
    (hb : bs[i]? = some b) : (List.zipWith f as bs)[i]? = some (f a b) := by
  rw [List.getElem?_zipWith', ha, hb]
  rfl

theorem getElem?_mapIdx_some {α β : Type} (l : List α) (f : ℕ → α → β) (i : ℕ)
    (a : α) (h : l[i]? = some a) : (l.mapIdx f)[i]? = some (f i a) := by
  obtain ⟨hi, hv⟩ := List.getElem?_eq_some.mp h
  have hi2 : i < (l.mapIdx f).length := by
    rw [List.length_mapIdx]
    exact hi
  have h3 : (l.mapIdx f).get ⟨i, hi2⟩ = f i (l.get ⟨i, hi⟩) := List.get_mapIdx l f i hi hi2
  have h4 : l.get ⟨i, hi⟩ = a := by
    rw [List.get_eq_getElem]
    exact hv
  rw [List.get_eq_getElem] at h3
  rw [List.getElem?_eq_getElem hi2, h3, h4]

theorem flipHoriz_constFrame {α : Type} (z : α) (cs : ℕ × ℕ) :
    flipHoriz (constFrame z cs) = constFrame z cs := by
  simp [flipHoriz, constFrame, List.map_replicate, List.reverse_replicate]

theorem heightAve_constZero (mn mx : ℚ) (cs : ℕ × ℕ) (h : 0 < mn) :
    heightAve mn mx (constFrame 0 cs) = none := by
  unfold heightAve constFrame flattenF
  have hfil : (List.replicate cs.1 (List.replicate cs.2 (0 : ℚ))).flatten.filter
      (fun x => decide (mn ≤ x) && decide (x ≤ mx)) = [] := by
    rw [List.filter_eq_nil_iff]
    intro x hx
    rw [List.mem_flatten] at hx
    obtain ⟨row, hrow, hxr⟩ := hx
    have hrow2 := List.eq_of_mem_replicate hrow
    rw [hrow2] at hxr
    have hx0 := List.eq_of_mem_replicate hxr
    rw [hx0]
    simp [not_le.mpr h]
  rw [hfil]

theorem filteredOf_length (p : ExtractParams) (chunk : List (Frame ℚ)) :
    (filteredOf p chunk).length = chunk.length :=
  clean_frames_length _ _ _ _ _ _ _

end Moseq

namespace Moseq

/-- C8: a frame with zero foreground pixels is recoverable, never an error:
extract_chunk completes, the frame's centroid and orientation are missing
(none, not zero), its raw/filtered/mask/likelihood crops are all-zero, the
flip and unwrap stages leave its orientation missing, and the velocity and
height scalars are missing (excluded) at that index. -/
theorem empty_foreground_propagation (p : ExtractParams) (chunk : List (Frame ℚ))
    (i : ℕ) (hb : p.bground = none) (hr : p.roi = none) (hmin : 0 < p.min_height)
    (hfg : (fgCellsList p.min_height p.mask_threshold p.use_cc (llRawOf p chunk)
      (filteredOf p chunk))[i]? = some []) :
    extract_chunk p chunk = .ok (extractPipeline p chunk) ∧
    (featsOf p chunk).centroid[i]? = some none ∧
    (featsOf p chunk).orientation[i]? = some none ∧
    (croppedRawOf p chunk)[i]? = some (constFrame 0 p.crop_size) ∧
    (croppedFilteredOf p chunk)[i]? = some (constFrame 0 p.crop_size) ∧
    (croppedMaskOf p chunk)[i]? = some (constFrame 0 p.crop_size) ∧
    (∀ cl, croppedLlOf p chunk = some cl →
      cl[i]? = some (constFrame (0 : ℝ) p.crop_size)) ∧
    (extractPipeline p chunk).depth_frames[i]? = some (constFrame 0 p.crop_size) ∧
    (orientPostFlipOf p chunk)[i]? = some none ∧
    (orientFinalOf p chunk)[i]? = some none ∧
    (extractPipeline p chunk).scalars.velocity[i]? = some none ∧
    (extractPipeline p chunk).scalars.height_ave[i]? = some none := by
  have hi0 : i < (fgCellsList p.min_height p.mask_threshold p.use_cc (llRawOf p chunk)
      (filteredOf p chunk)).length := (List.getElem?_eq_some.mp hfg).1
  have hi : i < chunk.length := by
    rw [← cellsListOf_length p chunk]
    exact hi0
  have hcent : (featsOf p chunk).centroid[i]? = some none := by
    show ((fgCellsList p.min_height p.mask_threshold p.use_cc (llRawOf p chunk)
      (filteredOf p chunk)).map centroidOf)[i]? = some none
    rw [List.getElem?_map, hfg]
    rfl
  have horient : (featsOf p chunk).orientation[i]? = some none := by
    show ((fgCellsList p.min_height p.mask_threshold p.use_cc (llRawOf p chunk)
      (filteredOf p chunk)).map orientOf)[i]? = some none
    rw [List.getElem?_map, hfg]
    rfl
  have hpose : (posesOf (featsOf p chunk))[i]? = some none := by
    unfold posesOf
    exact getElem?_zipWith_some _ _ _ i none none hcent horient
  have hcropRaw : (croppedRawOf p chunk)[i]? = some (constFrame 0 p.crop_size) := by
    unfold croppedRawOf crop_and_rotate_frames
    exact getElem?_zipWith_some _ _ _ i none (chunk[i]) hpose (List.getElem?_eq_getElem hi)
  have hif : i < (filteredOf p chunk).length := by
    rw [filteredOf_length]
    exact hi
  have hcropFilt : (croppedFilteredOf p chunk)[i]? = some (constFrame 0 p.crop_size) := by
    unfold croppedFilteredOf crop_and_rotate_frames
    exact getElem?_zipWith_some _ _ _ i none ((filteredOf p chunk)[i]) hpose
      (List.getElem?_eq_getElem hif)
  have him : i < (maskOf p chunk).length := by
    rw [maskOf_length]
    exact hi
  have hcropMask : (croppedMaskOf p chunk)[i]? = some (constFrame 0 p.crop_size) := by
    unfold croppedMaskOf crop_and_rotate_frames
    exact getElem?_zipWith_some _ _ _ i none ((maskOf p chunk)[i]) hpose
      (List.getElem?_eq_getElem him)
  have hllzero : ∀ cl, croppedLlOf p chunk = some cl →
      cl[i]? = some (constFrame (0 : ℝ) p.crop_size) := by
    intro cl hcl
    cases hll : llRawOf p chunk with
    | none =>
      unfold croppedLlOf at hcl
      rw [hll] at hcl
      exact absurd hcl (by simp)
    | some ll =>
      unfold croppedLlOf at hcl
      rw [hll] at hcl
      have hcl2 : crop_and_rotate_frames (0 : ℝ) p.crop_size (featsOf p chunk) ll = cl :=
        Option.some.inj hcl
      have hlll : i < ll.length := by
        rw [llRawOf_some_length p chunk ll hll]
        exact hi
      rw [← hcl2]
      unfold crop_and_rotate_frames
      exact getElem?_zipWith_some _ _ _ i none (ll[i]) hpose (List.getElem?_eq_getElem hlll)
  have hdepth : (depthFramesOf p chunk)[i]? = some (constFrame 0 p.crop_size) := by
    unfold depthFramesOf
    cases hf : flipsOf p chunk with
    | none => exact hcropRaw
    | some fl =>
      have hflt : i < fl.length := by
        rw [flipsOf_some_length p chunk fl hf]
        exact hi
      unfold applyFlips
      rw [getElem?_zipWith_some (fun b f => if b then flipHoriz f else f) fl
        (croppedRawOf p chunk) i (fl[i]) (constFrame 0 p.crop_size)
        (List.getElem?_eq_getElem hflt) hcropRaw]
      cases h2 : fl[i] <;> simp [flipHoriz_constFrame]
  have hfpost : (filteredPostOf p chunk)[i]? = some (constFrame 0 p.crop_size) := by
    unfold filteredPostOf
    cases hf : flipsOf p chunk with
    | none => exact hcropFilt
    | some fl =>
      have hflt : i < fl.length := by
        rw [flipsOf_some_length p chunk fl hf]
        exact hi
      unfold applyFlips
      rw [getElem?_zipWith_some (fun b f => if b then flipHoriz f else f) fl
        (croppedFilteredOf p chunk) i (fl[i]) (constFrame 0 p.crop_size)
        (List.getElem?_eq_getElem hflt) hcropFilt]
      cases h2 : fl[i] <;> simp [flipHoriz_constFrame]
  have hopf : (orientPostFlipOf p chunk)[i]? = some none := by
    unfold orientPostFlipOf
    cases hf : flipsOf p chunk with
    | none => exact horient
    | some fl =>
      have hflt : i < fl.length := by
        rw [flipsOf_some_length p chunk fl hf]
        exact hi
      rw [getElem?_zipWith_some
        (fun b o => if b then Option.map (fun th => th + Real.pi) o else o) fl
        (featsOf p chunk).orientation i (fl[i]) none
        (List.getElem?_eq_getElem hflt) horient]
      cases h2 : fl[i] <;> simp
  have hofin : (orientFinalOf p chunk)[i]? = some none := by
    unfold orientFinalOf unwrapStage
    exact (scatterVals_getElem_none _ _ i).mpr hopf
  have hvel : (scalarsOf p chunk).velocity[i]? = some none := by
    show (velSeq (featsOf p chunk).centroid)[i]? = some none
    unfold velSeq
    rw [getElem?_mapIdx_some _ _ i none hcent]
    cases i with
    | zero => rfl
    | succ k =>
      have hc2 : (featsOf p chunk).centroid[k + 1]? = some none := hcent
      rw [if_neg (Nat.succ_ne_zero k), hc2]
      rfl
  have hhgt : (scalarsOf p chunk).height_ave[i]? = some none := by
    show ((filteredPostOf p chunk).map (heightAve p.min_height p.max_height))[i]? = some none
    rw [List.getElem?_map, hfpost]
    simp [heightAve_constZero _ _ _ hmin]
  exact ⟨extract_chunk_guards_ok p chunk hb hr, hcent, horient, hcropRaw, hcropFilt,
    hcropMask, hllzero, hdepth, hopf, hofin, hvel, hhgt⟩

end Moseq

namespace Moseq

/-- Spot check of empty_foreground_propagation on a one-frame all-zero chunk
with default parameters. -/
theorem empty_foreground_propagation_spot :
    extract_chunk defaultParams zeroChunk =
      .ok (extractPipeline defaultParams zeroChunk) ∧
    (featsOf defaultParams zeroChunk).centroid[0]? = some none ∧
    (featsOf defaultParams zeroChunk).orientation[0]? = some none ∧
    (croppedRawOf defaultParams zeroChunk)[0]? =
      some (constFrame 0 defaultParams.crop_size) ∧
    (extractPipeline defaultParams zeroChunk).scalars.velocity[0]? = some none ∧
    (extractPipeline defaultParams zeroChunk).scalars.height_ave[0]? = some none := by
  have h := empty_foreground_propagation defaultParams zeroChunk 0 rfl rfl
    (by decide) (by decide)
  exact ⟨h.1, h.2.1, h.2.2.1, h.2.2.2.1, h.2.2.2.2.2.2.2.2.2.2.1,
    h.2.2.2.2.2.2.2.2.2.2.2⟩

end Moseq
